import Mathlib

/-!
Verification of the dsp-tool dependency-resolution and graph-generation core.

The definitions below are a shallow embedding of `src/data.rs` and
`src/commands/create_production_graph.rs`.  Rust `HashMap`s are embedded as
association lists (`List (key × value)` with `List.lookup`), `BTreeSet`s as
`Finset Nat` (iterated in ascending order via `Finset.sort`), and `usize`
identifiers as `Nat` (only insertion, comparison and display are performed on
identifiers, so machine-width overflow is irrelevant here).  The recursive
`resolve_item_dependencies` is embedded with an explicit fuel parameter that
models the call stack: running out of fuel yields `none`, and we prove below
that fuel `(number of recipes) + 1` always suffices, which is the termination
argument of the Rust code.
-/

namespace DspTool

/-- Embeds `ItemType` of `src/data.rs`. -/
inductive ItemType where
  | Material
  | Matrix
  | Product
  | Production
  | Resource
  | Component
  | Logistics
  | Unknown (s : String)
deriving DecidableEq

/-- Embeds `Item` of `src/data.rs`. -/
structure Item where
  name : String
  type_ : ItemType
deriving DecidableEq

/-- Embeds `ItemAmount` of `src/data.rs` (`id` is the item identifier). -/
structure ItemAmount where
  id : Nat
  amount : Nat
deriving DecidableEq

/-- Embeds `RecipeType` of `src/data.rs`. -/
inductive RecipeType where
  | Assemble
  | Chemical
  | Fractionate
  | Particle
  | Refine
  | Research
  | Smelt
  | Unknown (s : String)
deriving DecidableEq

/-- Embeds `Recipe` of `src/data.rs`.  `seconds` is an `f64` in Rust; it is
only ever displayed (never computed with), and all datasets in this
development use integral durations, so it is embedded as `Nat`. -/
structure Recipe where
  name : String
  type_ : RecipeType
  seconds : Nat
  explicit : Bool
  inputs : List ItemAmount
  outputs : List ItemAmount
deriving DecidableEq

/-- Embeds `Data` of `src/data.rs`: the item and recipe collections plus the
derived lookup indices, all as association lists. -/
structure Data where
  items : List (Nat × Item)
  recipes : List (Nat × Recipe)
  as_input : List (Nat × List Nat)
  as_output : List (Nat × List Nat)
  item_by_name : List (String × Nat)
  recipes_by_name : List (String × Nat)
deriving DecidableEq

/-- `entry(iid).or_default().push(rid)` on an association-list map, as used
when building the `as_input` / `as_output` indices in `Data::from_lua`. -/
def pushEntry : List (Nat × List Nat) → Nat → Nat → List (Nat × List Nat)
  | [], iid, rid => [(iid, [rid])]
  | (k, l) :: rest, iid, rid =>
    if k = iid then (k, l ++ [rid]) :: rest else (k, l) :: pushEntry rest iid rid

/-- Builds an index from a flattened `(item id, recipe id)` pair list, as in
`Data::from_lua`. -/
def buildIndex (pairs : List (Nat × Nat)) : List (Nat × List Nat) :=
  pairs.foldl (fun m p => pushEntry m p.1 p.2) []

/-- The `as_input` index of `Data::from_lua`: item id → recipes consuming it. -/
def asInputIndex (recipes : List (Nat × Recipe)) : List (Nat × List Nat) :=
  buildIndex (recipes.flatMap (fun p => p.2.inputs.map (fun a => (a.id, p.1))))

/-- The `as_output` index of `Data::from_lua`: item id → recipes producing it. -/
def asOutputIndex (recipes : List (Nat × Recipe)) : List (Nat × List Nat) :=
  buildIndex (recipes.flatMap (fun p => p.2.outputs.map (fun a => (a.id, p.1))))

/-- The recipe list the `as_output` index associates to item `iid`
(`data.as_output.get(&iid)`, with a missing key contributing nothing). -/
def asOutputList (data : Data) (iid : Nat) : List Nat :=
  (List.lookup iid data.as_output).getD []

/-- The two accumulator sets mutated by `resolve_item_dependencies`:
the visited recipe set and the growing item set (both `BTreeSet`s in Rust). -/
structure St where
  recipes : Finset Nat
  items : Finset Nat
deriving DecidableEq

/-- The inner loop of `resolve_item_dependencies` over a recipe's `inputs`:
each non-excluded input item is inserted into the item set and, when the
`resolve_deps` flag is set, recursed into (`rec`, which the caller instantiates
with the resolver at forced flag `true` as in the Rust source). -/
def goInputs (rec : St → Nat → Option St) (E : Finset Nat) :
    St → List ItemAmount → Bool → Option St
  | st, [], _ => some st
  | st, a :: rest, b =>
    if a.id ∈ E then goInputs rec E st rest b
    else if b then
      match rec ⟨st.recipes, insert a.id st.items⟩ a.id with
      | none => none
      | some st2 => goInputs rec E st2 rest b
    else goInputs rec E ⟨st.recipes, insert a.id st.items⟩ rest b

/-- The outer loop of `resolve_item_dependencies` over the recipes producing
the current item: a recipe that is not excluded and not yet visited is marked
visited and, when present in the recipe collection, has its inputs explored. -/
def goRids (rec : St → Nat → Option St) (data : Data) (E : Finset Nat) :
    St → List Nat → Bool → Option St
  | st, [], _ => some st
  | st, rid :: rest, b =>
    if rid ∉ E ∧ rid ∉ st.recipes then
      match List.lookup rid data.recipes with
      | none => goRids rec data E ⟨insert rid st.recipes, st.items⟩ rest b
      | some r =>
        match goInputs rec E ⟨insert rid st.recipes, st.items⟩ r.inputs b with
        | none => none
        | some st2 => goRids rec data E st2 rest b
    else goRids rec data E st rest b

/-- Embeds `resolve_item_dependencies`: fuel models the Rust call stack, and
every recursive call passes the flag as `true`, exactly as in the source. -/
def resolveF : Nat → Data → Finset Nat → St → Nat → Bool → Option St
  | 0, _, _, _, _, _ => none
  | fuel + 1, data, E, st, iid, b =>
    match List.lookup iid data.as_output with
    | none => some st
    | some rids => goRids (fun st i => resolveF fuel data E st i true) data E st rids b

/-- The identifiers of the recipe collection (the finite recipe universe). -/
def recipeKeys (data : Data) : Finset Nat :=
  (data.recipes.map Prod.fst).toFinset

/-- Fuel that always suffices for `resolveF` (proved below): one more than the
size of the recipe universe. -/
def resolveFuel (data : Data) : Nat :=
  (recipeKeys data).card + 1

/-- Folds the resolver over a list of starting items, threading the state, as
the `for item in items.clone()` loop of `CreateProductionGraph::exec` does. -/
def resolveList (data : Data) (E : Finset Nat) (b : Bool) :
    Option St → List Nat → Option St
  | ost, [] => ost
  | ost, iid :: rest =>
    resolveList data E b (ost.bind (fun st => resolveF (resolveFuel data) data E st iid b)) rest

/-- The `Resolve recipes` phase of `CreateProductionGraph::exec`: the recipe
set starts empty, the item set starts as the parsed starting items `S`, and
the resolver is run on each starting item in ascending order (`BTreeSet`
iteration). -/
def execResolveOpt (data : Data) (S E : Finset Nat) (b : Bool) : Option St :=
  resolveList data E b (some ⟨∅, S⟩) (Finset.sort (· ≤ ·) S)

/-- Total version of `execResolveOpt` (the fuel is proved sufficient below). -/
def execResolve (data : Data) (S E : Finset Nat) (b : Bool) : St :=
  (execResolveOpt data S E b).getD ⟨∅, S⟩

/-! ### Graph emission

`CreateProductionGraph::exec` prints the graph line by line; the functions
below produce that same list of lines. -/

/-- The edge printed for a recipe input (`"item name" -> "recipe id"`);
`none` when the referenced item is absent from the item collection, in which
case `exec` skips the edge. -/
def inputEdge (data : Data) (rid : Nat) (a : ItemAmount) : Option String :=
  (List.lookup a.id data.items).map
    (fun item => s!"    \"{item.name}\" -> \"{rid}\" [ name=\"{a.amount}\" ]")

/-- The edge printed for a recipe output (`"recipe id" -> "item name"`);
`none` when the referenced item is absent from the item collection. -/
def outputEdge (data : Data) (rid : Nat) (a : ItemAmount) : Option String :=
  (List.lookup a.id data.items).map
    (fun item => s!"    \"{rid}\" -> \"{item.name}\" [ name=\"{a.amount}\" ]")

/-- The lines printed for one resolved recipe identifier: nothing at all when
the identifier is absent from the recipe collection, otherwise a comment, a
node labeled with the duration, and one edge per input/output whose item
exists. -/
def recipeLines (data : Data) (rid : Nat) : List String :=
  match List.lookup rid data.recipes with
  | none => []
  | some r =>
    ["", s!"    /* {r.name} */",
        s!"    \"{rid}\" [ label=\"{r.seconds}\" shape=point width=0.1 ]"]
      ++ r.inputs.filterMap (inputEdge data rid)
      ++ r.outputs.filterMap (outputEdge data rid)

/-- All lines printed by the `Generate graph` phase of
`CreateProductionGraph::exec`: fixed header, the per-recipe lines in ascending
recipe-id order (`BTreeSet` iteration), fixed footer. -/
def graphLines (data : Data) (recipes : Finset Nat) : List String :=
  ["strict digraph DSP \x7b", "    graph [ rankdir=LR ]", "", "    /* Recipes */"]
    ++ (Finset.sort (· ≤ ·) recipes).flatMap (recipeLines data)
    ++ ["\x7d"]

/-! ### Token resolution (`parse_ids`) -/

/-- Embeds `usize::from_str` as used by `parse_ids`: an optional leading `+`
followed by one or more ASCII digits (machine-width overflow is irrelevant to
the properties below, so the value is an unbounded `Nat`). -/
def parseUsize (s : String) : Option Nat :=
  match s.data with
  | [] => none
  | c :: cs =>
    let ds := if c = '+' then cs else c :: cs
    if ds ≠ [] ∧ ds.all Char.isDigit then
      some (ds.foldl (fun n d => 10 * n + (d.toNat - 48)) 0)
    else none

/-- Embeds `str::to_lowercase` as used by `parse_ids` (all tokens of interest
are ASCII, where Rust's Unicode lowering and per-character lowering agree). -/
def lowerStr (s : String) : String :=
  ⟨s.data.map Char.toLower⟩

/-- The category keywords of `parse_ids` and the `ItemType` each selects. -/
def categoryOfKeyword (s : String) : Option ItemType :=
  if s = "material" then some ItemType.Material
  else if s = "matrix" then some ItemType.Matrix
  else if s = "product" then some ItemType.Product
  else if s = "production" then some ItemType.Production
  else if s = "resource" then some ItemType.Resource
  else if s = "component" then some ItemType.Component
  else if s = "logistics" then some ItemType.Logistics
  else none

/-- The curated `ADVANCED_RECIPES` name list of
`src/commands/create_production_graph.rs`. -/
def ADVANCED_RECIPES : List String :=
  ["Casimir Crystal (Advanced)", "Organic Crystal (Original)",
   "Crystal Silicon (Advanced)", "Photon Combiner (Advanced)",
   "Space Warper (Advanced)", "Particle Container (Advanced)",
   "Graphene (Advanced)", "Carbon Nanotube (Advanced)", "Diamond (Advanced)"]

/-- The expansion of one token by `parse_ids`, in the source's precedence
order: integer literal, item name, recipe name (kept only when recipes are
allowed), then the case-insensitive keywords, else the `InvalidToken`
error — whose message interpolates the *lowercased* token. -/
def parseToken (data : Data) (t : String) (items_only : Bool) :
    Except String (List Nat) :=
  match parseUsize t with
  | some id => .ok [id]
  | none =>
  match List.lookup t data.item_by_name with
  | some id => .ok [id]
  | none =>
  match List.lookup t data.recipes_by_name with
  | some id => .ok (if items_only then [] else [id])
  | none =>
    let s := lowerStr t
    if s = "all" then
      .ok (data.items.map Prod.fst ++ if items_only then [] else data.recipes.map Prod.fst)
    else if s = "explicit" ∧ items_only = false then
      .ok ((data.recipes.filter (fun p => p.2.explicit)).map Prod.fst)
    else if s = "advanced" ∧ items_only = false then
      .ok (ADVANCED_RECIPES.filterMap (fun n => List.lookup n data.recipes_by_name))
    else
      match categoryOfKeyword s with
      | some ty =>
        .ok ((data.items.filter (fun p => p.2.type_ = ty)).map Prod.fst)
      | none => .error s!"Invalid or unknown item: {s}"

/-- Embeds `parse_ids`: tokens are expanded in order and accumulated; the
first failing token aborts with its error. -/
def parse_ids (data : Data) : List String → Bool → Except String (List Nat)
  | [], _ => .ok []
  | t :: rest, items_only =>
    match parseToken data t items_only with
    | .error e => .error e
    | .ok ids =>
      match parse_ids data rest items_only with
      | .error e => .error e
      | .ok more => .ok (ids ++ more)

/-! ### Concrete datasets used by the testable properties -/

/-- The end-to-end scenario dataset of §8: items `1:"Ore"` (Material) and
`2:"Ingot"` (Component), one recipe `10:"Smelt Ingot"` consuming one Ore and
producing one Ingot, with the indices built exactly as `Data::from_lua`
builds them. -/
def dataC6 : Data :=
  { items := [(1, ⟨"Ore", ItemType.Material⟩), (2, ⟨"Ingot", ItemType.Component⟩)]
    recipes := [(10, ⟨"Smelt Ingot", RecipeType.Smelt, 1, false, [⟨1, 1⟩], [⟨2, 1⟩]⟩)]
    as_input := asInputIndex [(10, ⟨"Smelt Ingot", RecipeType.Smelt, 1, false, [⟨1, 1⟩], [⟨2, 1⟩]⟩)]
    as_output := asOutputIndex [(10, ⟨"Smelt Ingot", RecipeType.Smelt, 1, false, [⟨1, 1⟩], [⟨2, 1⟩]⟩)]
    item_by_name := [("Ore", 1), ("Ingot", 2)]
    recipes_by_name := [("Smelt Ingot", 10)] }

/-- A cyclic dataset: item 1's producing recipe 100 consumes item 2, whose
only producing recipe 101 consumes item 1. -/
def dataCyc : Data :=
  { items := [(1, ⟨"A", ItemType.Material⟩), (2, ⟨"B", ItemType.Material⟩)]
    recipes := [(100, ⟨"MakeA", RecipeType.Assemble, 1, false, [⟨2, 1⟩], [⟨1, 1⟩]⟩),
                (101, ⟨"MakeB", RecipeType.Assemble, 1, false, [⟨1, 1⟩], [⟨2, 1⟩]⟩)]
    as_input := asInputIndex [(100, ⟨"MakeA", RecipeType.Assemble, 1, false, [⟨2, 1⟩], [⟨1, 1⟩]⟩),
                (101, ⟨"MakeB", RecipeType.Assemble, 1, false, [⟨1, 1⟩], [⟨2, 1⟩]⟩)]
    as_output := asOutputIndex [(100, ⟨"MakeA", RecipeType.Assemble, 1, false, [⟨2, 1⟩], [⟨1, 1⟩]⟩),
                (101, ⟨"MakeB", RecipeType.Assemble, 1, false, [⟨1, 1⟩], [⟨2, 1⟩]⟩)]
    item_by_name := [("A", 1), ("B", 2)]
    recipes_by_name := [("MakeA", 100), ("MakeB", 101)] }

/-- A dataset where item 1 is both a starting item and excluded: recipe 10
produces item 1 from nothing. -/
def dataC3 : Data :=
  { items := [(1, ⟨"Thing", ItemType.Material⟩)]
    recipes := [(10, ⟨"MakeThing", RecipeType.Assemble, 1, false, [], [⟨1, 1⟩]⟩)]
    as_input := asInputIndex [(10, ⟨"MakeThing", RecipeType.Assemble, 1, false, [], [⟨1, 1⟩]⟩)]
    as_output := asOutputIndex [(10, ⟨"MakeThing", RecipeType.Assemble, 1, false, [], [⟨1, 1⟩]⟩)]
    item_by_name := [("Thing", 1)]
    recipes_by_name := [("MakeThing", 10)] }

/-- A dataset whose recipe 10 references input item 99 and output item 98,
neither of which exists in the item collection, besides a real input item 1. -/
def dataDangling : Data :=
  { items := [(1, ⟨"Real", ItemType.Material⟩)]
    recipes := [(10, ⟨"Broken", RecipeType.Assemble, 2, false, [⟨1, 3⟩, ⟨99, 4⟩], [⟨98, 5⟩]⟩)]
    as_input := asInputIndex [(10, ⟨"Broken", RecipeType.Assemble, 2, false, [⟨1, 3⟩, ⟨99, 4⟩], [⟨98, 5⟩]⟩)]
    as_output := asOutputIndex [(10, ⟨"Broken", RecipeType.Assemble, 2, false, [⟨1, 3⟩, ⟨99, 4⟩], [⟨98, 5⟩]⟩)]
    item_by_name := [("Real", 1)]
    recipes_by_name := [("Broken", 10)] }

/-- The empty dataset. -/
def dataEmpty : Data :=
  { items := [], recipes := [], as_input := [], as_output := []
    item_by_name := [], recipes_by_name := [] }

/-! ### Specification-side companions to the resolver

`addItems`, `oneLevelRids` and `oneLevel` describe one non-recursive
expansion step (what `resolve_item_dependencies` does when called with
`resolve_deps = false`); `resolveAllF` is the always-recursing variant (what
it does at every level below the first, where the flag is passed as `true`).
Both are proved below to coincide with the corresponding runs of `resolveF`. -/

/-- One pass over a recipe's inputs without recursion: each non-excluded
input item is inserted into the item set. -/
def addItems (E : Finset Nat) : St → List ItemAmount → St
  | st, [] => st
  | st, a :: rest =>
    if a.id ∈ E then addItems E st rest
    else addItems E ⟨st.recipes, insert a.id st.items⟩ rest

/-- One pass over the producing recipes of an item without recursion. -/
def oneLevelRids (data : Data) (E : Finset Nat) : St → List Nat → St
  | st, [] => st
  | st, rid :: rest =>
    if rid ∉ E ∧ rid ∉ st.recipes then
      match List.lookup rid data.recipes with
      | none => oneLevelRids data E ⟨insert rid st.recipes, st.items⟩ rest
      | some r =>
        oneLevelRids data E (addItems E ⟨insert rid st.recipes, st.items⟩ r.inputs) rest
    else oneLevelRids data E st rest

/-- A single expansion level for one item: its producing recipes are visited
and their inputs collected, but no input is recursed into. -/
def oneLevel (data : Data) (E : Finset Nat) (st : St) (iid : Nat) : St :=
  oneLevelRids data E st (asOutputList data iid)

/-- `goInputs` with recursion forced on (no flag). -/
def goInputsA (rec : St → Nat → Option St) (E : Finset Nat) :
    St → List ItemAmount → Option St
  | st, [] => some st
  | st, a :: rest =>
    if a.id ∈ E then goInputsA rec E st rest
    else
      match rec ⟨st.recipes, insert a.id st.items⟩ a.id with
      | none => none
      | some st2 => goInputsA rec E st2 rest

/-- `goRids` with recursion forced on (no flag). -/
def goRidsA (rec : St → Nat → Option St) (data : Data) (E : Finset Nat) :
    St → List Nat → Option St
  | st, [] => some st
  | st, rid :: rest =>
    if rid ∉ E ∧ rid ∉ st.recipes then
      match List.lookup rid data.recipes with
      | none => goRidsA rec data E ⟨insert rid st.recipes, st.items⟩ rest
      | some r =>
        match goInputsA rec E ⟨insert rid st.recipes, st.items⟩ r.inputs with
        | none => none
        | some st2 => goRidsA rec data E st2 rest
    else goRidsA rec data E st rest

/-- The resolver with recursion always on: no `resolve_deps` flag anywhere. -/
def resolveAllF : Nat → Data → Finset Nat → St → Nat → Option St
  | 0, _, _, _, _ => none
  | fuel + 1, data, E, st, iid =>
    match List.lookup iid data.as_output with
    | none => some st
    | some rids => goRidsA (fun st i => resolveAllF fuel data E st i) data E st rids

/-- Every visited recipe is recorded as a producer (in `as_output`) of some
item of the item set. -/
def Producing (data : Data) (st : St) : Prop :=
  ∀ r ∈ st.recipes, ∃ j ∈ st.items, r ∈ asOutputList data j

/-! ### Basic lemmas -/

theorem lookup_mem_keys {α : Type} {l : List (Nat × α)} {k : Nat} {v : α}
    (h : List.lookup k l = some v) : k ∈ l.map Prod.fst := by
  induction l with
  | nil => simp [List.lookup] at h
  | cons p rest ih =>
    obtain ⟨k', v'⟩ := p
    simp only [List.lookup] at h
    by_cases hk : k = k'
    · simp [hk]
    · have hb : (k == k') = false := beq_eq_false_iff_ne.mpr hk
      rw [hb] at h
      exact List.mem_cons_of_mem _ (ih h)

/-! ### Preservation of state predicates by the resolver

`resolve_item_dependencies` changes its two accumulator sets only by the two
insertions visible in the source: a non-excluded recipe id into the visited
set, a non-excluded input item id into the item set.  Any predicate closed
under those two updates is an invariant of the whole traversal. -/

theorem goInputs_pres (rec : St → Nat → Option St) (E : Finset Nat) (P : St → Prop)
    (hitems : ∀ st i, i ∉ E → P st → P ⟨st.recipes, insert i st.items⟩)
    (hrec : ∀ st i st', P st → rec st i = some st' → P st') :
    ∀ l st b st', P st → goInputs rec E st l b = some st' → P st' := by
  intro l
  induction l with
  | nil =>
    intro st b st' hP h
    simp only [goInputs] at h
    cases h
    exact hP
  | cons a rest ih =>
    intro st b st' hP h
    simp only [goInputs] at h
    by_cases ha : a.id ∈ E
    · rw [if_pos ha] at h
      exact ih st b st' hP h
    · rw [if_neg ha] at h
      have hP1 : P ⟨st.recipes, insert a.id st.items⟩ := hitems st a.id ha hP
      cases b with
      | false => exact ih _ false st' hP1 h
      | true =>
        simp only [if_pos] at h
        cases hr : rec ⟨st.recipes, insert a.id st.items⟩ a.id with
        | none => rw [hr] at h; cases h
        | some st2 =>
          rw [hr] at h
          exact ih st2 true st' (hrec _ _ _ hP1 hr) h

theorem goRids_pres (rec : St → Nat → Option St) (data : Data) (E : Finset Nat)
    (P : St → Prop) (l : List Nat)
    (hitems : ∀ st i, i ∉ E → P st → P ⟨st.recipes, insert i st.items⟩)
    (hins : ∀ rid ∈ l, ∀ st, rid ∉ E → rid ∉ st.recipes → P st →
      P ⟨insert rid st.recipes, st.items⟩)
    (hrec : ∀ st i st', P st → rec st i = some st' → P st') :
    ∀ st b st', P st → goRids rec data E st l b = some st' → P st' := by
  induction l with
  | nil =>
    intro st b st' hP h
    simp only [goRids] at h
    cases h
    exact hP
  | cons rid rest ih =>
    intro st b st' hP h
    have ih' := ih (fun r hr => hins r (List.mem_cons_of_mem _ hr))
    simp only [goRids] at h
    split at h
    · rename_i hg
      have hP1 : P ⟨insert rid st.recipes, st.items⟩ :=
        hins rid (List.mem_cons_self _ _) st hg.1 hg.2 hP
      split at h
      · exact ih' _ b st' hP1 h
      · rename_i r hl
        split at h
        · cases h
        · rename_i st2 hgi
          exact ih' st2 b st' (goInputs_pres rec E P hitems hrec r.inputs _ b st2 hP1 hgi) h
    · rename_i hg
      exact ih' st b st' hP h

theorem resolveF_pres (data : Data) (E : Finset Nat) (P : St → Prop)
    (hitems : ∀ st i, i ∉ E → P st → P ⟨st.recipes, insert i st.items⟩)
    (hins : ∀ st rid, rid ∉ E → rid ∉ st.recipes → P st →
      P ⟨insert rid st.recipes, st.items⟩) :
    ∀ fuel st iid b st', P st → resolveF fuel data E st iid b = some st' → P st' := by
  intro fuel
  induction fuel with
  | zero => intro st iid b st' _ h; simp [resolveF] at h
  | succ n ih =>
    intro st iid b st' hP h
    simp only [resolveF] at h
    cases hl : List.lookup iid data.as_output with
    | none => rw [hl] at h; cases h; exact hP
    | some rids =>
      rw [hl] at h
      exact goRids_pres _ data E P rids hitems
        (fun rid _ st hE hR hP => hins st rid hE hR hP)
        (fun st i st' hP h => ih st i true st' hP h) st b st' hP h

/-- The two accumulator sets only grow (C9 core). -/
theorem resolveF_grow {fuel : Nat} {data : Data} {E : Finset Nat} {st : St}
    {iid : Nat} {b : Bool} {st' : St} (h : resolveF fuel data E st iid b = some st') :
    st.recipes ⊆ st'.recipes ∧ st.items ⊆ st'.items :=
  resolveF_pres data E (fun s => st.recipes ⊆ s.recipes ∧ st.items ⊆ s.items)
    (fun s i _ hP => ⟨hP.1, hP.2.trans (Finset.subset_insert i s.items)⟩)
    (fun s rid _ _ hP => ⟨hP.1.trans (Finset.subset_insert rid s.recipes), hP.2⟩)
    fuel st iid b st' ⟨subset_rfl, subset_rfl⟩ h

/-- An excluded recipe identifier is never inserted into the visited set. -/
theorem resolveF_excl {fuel : Nat} {data : Data} {E : Finset Nat} {st : St}
    {iid : Nat} {b : Bool} {st' : St} {r : Nat} (hr : r ∈ E) (h0 : r ∉ st.recipes)
    (h : resolveF fuel data E st iid b = some st') : r ∉ st'.recipes :=
  resolveF_pres data E (fun s => r ∉ s.recipes)
    (fun _ _ _ hP => hP)
    (fun s rid hE _ hP hmem => by
      rcases Finset.mem_insert.mp hmem with hrid | hmem
      · exact hE (hrid ▸ hr)
      · exact hP hmem)
    fuel st iid b st' h0 h

/-- An excluded item identifier is never inserted into the item set. -/
theorem resolveF_exclItem {fuel : Nat} {data : Data} {E : Finset Nat} {st : St}
    {iid : Nat} {b : Bool} {st' : St} {i : Nat} (hi : i ∈ E) (h0 : i ∉ st.items)
    (h : resolveF fuel data E st iid b = some st') : i ∉ st'.items :=
  resolveF_pres data E (fun s => i ∉ s.items)
    (fun s j hE hP hmem => by
      rcases Finset.mem_insert.mp hmem with hj | hmem
      · exact hE (hj ▸ hi)
      · exact hP hmem)
    (fun _ _ _ _ hP => hP)
    fuel st iid b st' h0 h

theorem goInputs_grow (rec : St → Nat → Option St) (E : Finset Nat)
    (hrec : ∀ st i st', rec st i = some st' →
      st.recipes ⊆ st'.recipes ∧ st.items ⊆ st'.items)
    {l : List ItemAmount} {st : St} {b : Bool} {st' : St}
    (h : goInputs rec E st l b = some st') :
    st.recipes ⊆ st'.recipes ∧ st.items ⊆ st'.items :=
  goInputs_pres rec E (fun s => st.recipes ⊆ s.recipes ∧ st.items ⊆ s.items)
    (fun _ _ _ hP => ⟨hP.1, hP.2.trans (Finset.subset_insert _ _)⟩)
    (fun s i s' hP hr => ⟨hP.1.trans (hrec s i s' hr).1, hP.2.trans (hrec s i s' hr).2⟩)
    l st b st' ⟨subset_rfl, subset_rfl⟩ h

theorem goRids_grow (rec : St → Nat → Option St) (data : Data) (E : Finset Nat)
    (hrec : ∀ st i st', rec st i = some st' →
      st.recipes ⊆ st'.recipes ∧ st.items ⊆ st'.items)
    {l : List Nat} {st : St} {b : Bool} {st' : St}
    (h : goRids rec data E st l b = some st') :
    st.recipes ⊆ st'.recipes ∧ st.items ⊆ st'.items :=
  goRids_pres rec data E (fun s => st.recipes ⊆ s.recipes ∧ st.items ⊆ s.items) l
    (fun _ _ _ hP => ⟨hP.1, hP.2.trans (Finset.subset_insert _ _)⟩)
    (fun _ _ _ _ _ hP => ⟨hP.1.trans (Finset.subset_insert _ _), hP.2⟩)
    (fun s i s' hP hr => ⟨hP.1.trans (hrec s i s' hr).1, hP.2.trans (hrec s i s' hr).2⟩)
    st b st' ⟨subset_rfl, subset_rfl⟩ h

/-! ### Termination: bounded fuel always suffices

The Rust recursion terminates because a recipe is expanded only on first
insertion into the visited set; here that argument becomes: the fuel
`(recipeKeys data).card + 1` can never run out, since every nested call
strictly shrinks the set of not-yet-visited recipe identifiers. -/

theorem goInputs_some (rec : St → Nat → Option St) (E K : Finset Nat) (n : Nat)
    (hrecG : ∀ st i st', rec st i = some st' →
      st.recipes ⊆ st'.recipes ∧ st.items ⊆ st'.items)
    (hrecS : ∀ st i, (K \ st.recipes).card < n → (rec st i).isSome) :
    ∀ l st b, (K \ st.recipes).card < n → (goInputs rec E st l b).isSome := by
  intro l
  induction l with
  | nil => intro st b _; simp [goInputs]
  | cons a rest ih =>
    intro st b hc
    simp only [goInputs]
    split
    · exact ih st b hc
    · split
      · cases hr : rec ⟨st.recipes, insert a.id st.items⟩ a.id with
        | none =>
          have hs := hrecS ⟨st.recipes, insert a.id st.items⟩ a.id hc
          rw [hr] at hs
          simp at hs
        | some st2 =>
          apply ih
          have hsub : st.recipes ⊆ st2.recipes := (hrecG _ _ _ hr).1
          exact lt_of_le_of_lt
            (Finset.card_le_card (Finset.sdiff_subset_sdiff subset_rfl hsub)) hc
      · exact ih _ b hc

theorem goRids_some (rec : St → Nat → Option St) (data : Data) (E : Finset Nat) (n : Nat)
    (hrecG : ∀ st i st', rec st i = some st' →
      st.recipes ⊆ st'.recipes ∧ st.items ⊆ st'.items)
    (hrecS : ∀ st i, (recipeKeys data \ st.recipes).card < n → (rec st i).isSome) :
    ∀ l st b, (recipeKeys data \ st.recipes).card < n + 1 →
      (goRids rec data E st l b).isSome := by
  intro l
  induction l with
  | nil => intro st b _; simp [goRids]
  | cons rid rest ih =>
    intro st b hc
    simp only [goRids]
    split
    · rename_i hg
      have hstep : ∀ s : Finset Nat, insert rid st.recipes ⊆ s →
          (recipeKeys data \ s).card < n + 1 := by
        intro s hs
        exact lt_of_le_of_lt
          (Finset.card_le_card (Finset.sdiff_subset_sdiff subset_rfl
            ((Finset.subset_insert _ _).trans hs))) hc
      cases hl : List.lookup rid data.recipes with
      | none => exact ih _ b (hstep _ subset_rfl)
      | some r =>
        have hkey : rid ∈ recipeKeys data := by
          simpa [recipeKeys] using lookup_mem_keys hl
        have hmem : rid ∈ recipeKeys data \ st.recipes :=
          Finset.mem_sdiff.mpr ⟨hkey, hg.2⟩
        have hcard1 : (recipeKeys data \ insert rid st.recipes).card < n := by
          have hs : recipeKeys data \ insert rid st.recipes =
              (recipeKeys data \ st.recipes).erase rid := by
            ext x
            simp only [Finset.mem_sdiff, Finset.mem_erase, Finset.mem_insert]
            tauto
          have hlt := Finset.card_erase_lt_of_mem hmem
          rw [hs]
          omega
        show (match goInputs rec E ⟨insert rid st.recipes, st.items⟩ r.inputs b with
          | none => (none : Option St)
          | some st2 => goRids rec data E st2 rest b).isSome = true
        cases hgi : goInputs rec E ⟨insert rid st.recipes, st.items⟩ r.inputs b with
        | none =>
          have hs := goInputs_some rec E (recipeKeys data) n hrecG hrecS r.inputs
            ⟨insert rid st.recipes, st.items⟩ b hcard1
          rw [hgi] at hs
          simp at hs
        | some st2 =>
          have hsub : insert rid st.recipes ⊆ st2.recipes :=
            (goInputs_grow rec E hrecG hgi).1
          exact ih st2 b (hstep _ hsub)
    · exact ih st b hc

theorem resolveF_some (data : Data) (E : Finset Nat) :
    ∀ fuel st iid b, (recipeKeys data \ st.recipes).card < fuel →
      (resolveF fuel data E st iid b).isSome := by
  intro fuel
  induction fuel with
  | zero => intro st iid b hc; exact absurd hc (Nat.not_lt_zero _)
  | succ n ih =>
    intro st iid b hc
    simp only [resolveF]
    cases hl : List.lookup iid data.as_output with
    | none => simp
    | some rids =>
      exact goRids_some _ data E n (fun st i st' h => resolveF_grow h)
        (fun st i h => ih st i true h) rids st b hc

/-- With its actual fuel, the resolver never gives up. -/
theorem resolveFuel_some (data : Data) (E : Finset Nat) (st : St) (iid : Nat) (b : Bool) :
    (resolveF (resolveFuel data) data E st iid b).isSome :=
  resolveF_some data E (resolveFuel data) st iid b
    (Nat.lt_succ_of_le (Finset.card_le_card Finset.sdiff_subset))

/-! ### The top-level resolution loop -/

theorem resolveList_none (data : Data) (E : Finset Nat) (b : Bool) :
    ∀ l, resolveList data E b none l = none := by
  intro l
  induction l with
  | nil => rfl
  | cons iid rest ih => simpa [resolveList] using ih

theorem resolveList_isSome (data : Data) (E : Finset Nat) (b : Bool) :
    ∀ l st, (resolveList data E b (some st) l).isSome := by
  intro l
  induction l with
  | nil => intro st; simp [resolveList]
  | cons iid rest ih =>
    intro st
    have h : resolveList data E b (some st) (iid :: rest) =
        resolveList data E b (resolveF (resolveFuel data) data E st iid b) rest := rfl
    rw [h]
    cases hr : resolveF (resolveFuel data) data E st iid b with
    | none =>
      have hs := resolveFuel_some data E st iid b
      rw [hr] at hs
      simp at hs
    | some st1 => exact ih st1

theorem execResolveOpt_isSome (data : Data) (S E : Finset Nat) (b : Bool) :
    (execResolveOpt data S E b).isSome :=
  resolveList_isSome data E b _ _

theorem resolveList_pres (data : Data) (E : Finset Nat) (b : Bool) (P : St → Prop)
    (hstep : ∀ st iid st', P st →
      resolveF (resolveFuel data) data E st iid b = some st' → P st') :
    ∀ l st st', P st → resolveList data E b (some st) l = some st' → P st' := by
  intro l
  induction l with
  | nil => intro st st' hP h; cases h; exact hP
  | cons iid rest ih =>
    intro st st' hP h
    replace h : resolveList data E b
        (resolveF (resolveFuel data) data E st iid b) rest = some st' := h
    cases hr : resolveF (resolveFuel data) data E st iid b with
    | none => rw [hr, resolveList_none] at h; cases h
    | some st1 =>
      rw [hr] at h
      exact ih st1 st' (hstep st iid st1 hP hr) h

/-! ### Every non-excluded producer of the queried item is visited -/

theorem goRids_covers (rec : St → Nat → Option St) (data : Data) (E : Finset Nat)
    (hrec : ∀ st i st', rec st i = some st' →
      st.recipes ⊆ st'.recipes ∧ st.items ⊆ st'.items) :
    ∀ l st b st', goRids rec data E st l b = some st' →
      ∀ rid ∈ l, rid ∉ E → rid ∈ st'.recipes := by
  intro l
  induction l with
  | nil => intro st b st' _ rid hrid; cases hrid
  | cons r0 rest ih =>
    intro st b st' h rid hrid hE
    simp only [goRids] at h
    split at h
    · rename_i hg
      rcases List.mem_cons.mp hrid with hr | hr
      · subst hr
        split at h
        · exact (goRids_grow rec data E hrec h).1 (Finset.mem_insert_self _ _)
        · rename_i r _
          split at h
          · cases h
          · rename_i st2 hgi
            exact (goRids_grow rec data E hrec h).1
              ((goInputs_grow rec E hrec hgi).1 (Finset.mem_insert_self _ _))
      · split at h
        · exact ih _ b st' h rid hr hE
        · split at h
          · cases h
          · exact ih _ b st' h rid hr hE
    · rename_i hg
      rcases List.mem_cons.mp hrid with hr | hr
      · subst hr
        have hmem : rid ∈ st.recipes := by
          by_contra hno
          exact hg ⟨hE, hno⟩
        exact (goRids_grow rec data E hrec h).1 hmem
      · exact ih st b st' h rid hr hE

theorem resolveF_covers {fuel : Nat} {data : Data} {E : Finset Nat} {st : St}
    {iid : Nat} {b : Bool} {st' : St} (h : resolveF fuel data E st iid b = some st') :
    ∀ rid ∈ asOutputList data iid, rid ∉ E → rid ∈ st'.recipes := by
  cases fuel with
  | zero => simp [resolveF] at h
  | succ n =>
    simp only [resolveF] at h
    intro rid hrid hE
    cases hl : List.lookup iid data.as_output with
    | none => simp [asOutputList, hl] at hrid
    | some rids =>
      rw [hl] at h
      exact goRids_covers _ data E (fun _ _ _ hh => resolveF_grow hh) rids st b st' h
        rid (by simpa [asOutputList, hl] using hrid) hE

/-! ### Without the flag, resolution performs exactly one expansion level -/

theorem goInputs_false (rec : St → Nat → Option St) (E : Finset Nat) :
    ∀ l st, goInputs rec E st l false = some (addItems E st l) := by
  intro l
  induction l with
  | nil => intro st; rfl
  | cons a rest ih =>
    intro st
    simp only [goInputs, addItems]
    split
    · exact ih st
    · exact ih _

theorem goRids_false (rec : St → Nat → Option St) (data : Data) (E : Finset Nat) :
    ∀ l st, goRids rec data E st l false = some (oneLevelRids data E st l) := by
  intro l
  induction l with
  | nil => intro st; rfl
  | cons rid rest ih =>
    intro st
    simp only [goRids, oneLevelRids]
    split
    · cases hl : List.lookup rid data.recipes with
      | none => exact ih _
      | some r =>
        show (match goInputs rec E ⟨insert rid st.recipes, st.items⟩ r.inputs false with
          | none => (none : Option St)
          | some st2 => goRids rec data E st2 rest false) =
          some (oneLevelRids data E (addItems E ⟨insert rid st.recipes, st.items⟩ r.inputs) rest)
        rw [goInputs_false]
        exact ih _
    · exact ih st

theorem resolveF_false (fuel : Nat) (data : Data) (E : Finset Nat) (st : St) (iid : Nat)
    (hfuel : 1 ≤ fuel) :
    resolveF fuel data E st iid false = some (oneLevel data E st iid) := by
  cases fuel with
  | zero => cases hfuel
  | succ n =>
    simp only [resolveF, oneLevel, asOutputList]
    cases hl : List.lookup iid data.as_output with
    | none => rfl
    | some rids =>
      simp only [Option.getD_some]
      exact goRids_false _ data E rids st

/-! ### With the flag, every level recurses (the flag is forced `true` below
the root) -/

theorem goInputs_true (rec recA : St → Nat → Option St) (E : Finset Nat)
    (h : ∀ st i, rec st i = recA st i) :
    ∀ l st, goInputs rec E st l true = goInputsA recA E st l := by
  intro l
  induction l with
  | nil => intro st; rfl
  | cons a rest ih =>
    intro st
    simp only [goInputs, goInputsA]
    split
    · exact ih st
    · rw [h]
      cases recA ⟨st.recipes, insert a.id st.items⟩ a.id with
      | none => rfl
      | some st2 => exact ih st2

theorem goRids_true (rec recA : St → Nat → Option St) (data : Data) (E : Finset Nat)
    (h : ∀ st i, rec st i = recA st i) :
    ∀ l st, goRids rec data E st l true = goRidsA recA data E st l := by
  intro l
  induction l with
  | nil => intro st; rfl
  | cons rid rest ih =>
    intro st
    simp only [goRids, goRidsA]
    split
    · cases List.lookup rid data.recipes with
      | none => exact ih _
      | some r =>
        show (match goInputs rec E ⟨insert rid st.recipes, st.items⟩ r.inputs true with
            | none => (none : Option St)
            | some st2 => goRids rec data E st2 rest true) =
          (match goInputsA recA E ⟨insert rid st.recipes, st.items⟩ r.inputs with
            | none => (none : Option St)
            | some st2 => goRidsA recA data E st2 rest)
        rw [goInputs_true rec recA E h]
        cases goInputsA recA E ⟨insert rid st.recipes, st.items⟩ r.inputs with
        | none => rfl
        | some st2 => exact ih st2
    · exact ih st

theorem resolveF_true (data : Data) (E : Finset Nat) :
    ∀ fuel st iid, resolveF fuel data E st iid true = resolveAllF fuel data E st iid := by
  intro fuel
  induction fuel with
  | zero => intro st iid; rfl
  | succ n ih =>
    intro st iid
    simp only [resolveF, resolveAllF]
    cases List.lookup iid data.as_output with
    | none => rfl
    | some rids => exact goRids_true _ _ data E (fun st i => ih st i) rids st

/-! ### What one expansion level adds to the recipe set -/

theorem addItems_recipes (E : Finset Nat) :
    ∀ l st, (addItems E st l).recipes = st.recipes := by
  intro l
  induction l with
  | nil => intro st; rfl
  | cons a rest ih =>
    intro st
    simp only [addItems]
    split
    · exact ih st
    · exact ih _

theorem oneLevelRids_recipes (data : Data) (E : Finset Nat) :
    ∀ l st, (oneLevelRids data E st l).recipes =
      st.recipes ∪ (l.filter (fun r => decide (r ∉ E))).toFinset := by
  intro l
  induction l with
  | nil => intro st; simp [oneLevelRids]
  | cons rid rest ih =>
    intro st
    simp only [oneLevelRids]
    by_cases hE : rid ∈ E
    · rw [if_neg (by simp [hE]), List.filter_cons_of_neg (by simp [hE])]
      exact ih st
    · rw [List.filter_cons_of_pos (by simp [hE])]
      by_cases hR : rid ∈ st.recipes
      · rw [if_neg (by simp [hE, hR])]
        rw [ih st, List.toFinset_cons, Finset.union_insert,
          Finset.insert_eq_self.mpr (Finset.mem_union_left _ hR)]
      · rw [if_pos ⟨hE, hR⟩]
        cases hl : List.lookup rid data.recipes with
        | none =>
          rw [ih ⟨insert rid st.recipes, st.items⟩, List.toFinset_cons,
            Finset.union_insert, Finset.insert_union]
        | some r =>
          rw [ih (addItems E ⟨insert rid st.recipes, st.items⟩ r.inputs),
            addItems_recipes, List.toFinset_cons, Finset.union_insert,
            Finset.insert_union]

theorem oneLevel_recipes (data : Data) (E : Finset Nat) (st : St) (iid : Nat) :
    (oneLevel data E st iid).recipes =
      st.recipes ∪ ((asOutputList data iid).filter (fun r => decide (r ∉ E))).toFinset :=
  oneLevelRids_recipes data E (asOutputList data iid) st

/-! ### Monotonicity: the one-level run is dominated by the recursive run -/

theorem resolveList_pair (data : Data) (E : Finset Nat) :
    ∀ l stf stt stf' stt', stf.recipes ⊆ stt.recipes →
      resolveList data E false (some stf) l = some stf' →
      resolveList data E true (some stt) l = some stt' →
      stf'.recipes ⊆ stt'.recipes := by
  intro l
  induction l with
  | nil =>
    intro stf stt stf' stt' hsub hf ht
    cases hf
    cases ht
    exact hsub
  | cons iid rest ih =>
    intro stf stt stf' stt' hsub hf ht
    replace hf : resolveList data E false
        (resolveF (resolveFuel data) data E stf iid false) rest = some stf' := hf
    replace ht : resolveList data E true
        (resolveF (resolveFuel data) data E stt iid true) rest = some stt' := ht
    rw [resolveF_false (resolveFuel data) data E stf iid
      (Nat.le_add_left 1 (recipeKeys data).card)] at hf
    cases hr : resolveF (resolveFuel data) data E stt iid true with
    | none => rw [hr, resolveList_none] at ht; cases ht
    | some stt1 =>
      rw [hr] at ht
      apply ih _ stt1 _ _ _ hf ht
      have hg := resolveF_grow hr
      rw [oneLevel_recipes]
      apply Finset.union_subset (hsub.trans hg.1)
      intro rid hrid
      rw [List.mem_toFinset, List.mem_filter] at hrid
      exact resolveF_covers hr rid hrid.1 (of_decide_eq_true hrid.2)

/-! ### The producing invariant (every visited recipe produces a kept item) -/

theorem Producing_insertItem {data : Data} {st : St} {i : Nat}
    (h : Producing data st) : Producing data ⟨st.recipes, insert i st.items⟩ :=
  fun r hr =>
    let ⟨j, hj, hjr⟩ := h r hr
    ⟨j, Finset.mem_insert_of_mem hj, hjr⟩

theorem goInputs_prod (rec : St → Nat → Option St) (data : Data) (E : Finset Nat)
    (hrecP : ∀ st i st', Producing data st → i ∈ st.items →
      rec st i = some st' → Producing data st') :
    ∀ l st b st', Producing data st → goInputs rec E st l b = some st' →
      Producing data st' := by
  intro l
  induction l with
  | nil =>
    intro st b st' hP h
    cases h
    exact hP
  | cons a rest ih =>
    intro st b st' hP h
    simp only [goInputs] at h
    split at h
    · exact ih st b st' hP h
    · have hP1 : Producing data ⟨st.recipes, insert a.id st.items⟩ :=
        Producing_insertItem hP
      split at h
      · split at h
        · cases h
        · rename_i st2 hr2
          exact ih st2 _ st'
            (hrecP _ a.id st2 hP1 (Finset.mem_insert_self _ _) hr2) h
      · exact ih _ _ st' hP1 h

theorem goRids_prod (rec : St → Nat → Option St) (data : Data) (E : Finset Nat)
    (iid : Nat)
    (hrecG : ∀ st i st', rec st i = some st' →
      st.recipes ⊆ st'.recipes ∧ st.items ⊆ st'.items)
    (hrecP : ∀ st i st', Producing data st → i ∈ st.items →
      rec st i = some st' → Producing data st') :
    ∀ l, (∀ rid ∈ l, rid ∈ asOutputList data iid) →
      ∀ st b st', Producing data st → iid ∈ st.items →
        goRids rec data E st l b = some st' → Producing data st' := by
  intro l
  induction l with
  | nil =>
    intro _ st b st' hP _ h
    cases h
    exact hP
  | cons rid rest ih =>
    intro hlist st b st' hP hiid h
    have ih' := ih (fun r hr => hlist r (List.mem_cons_of_mem _ hr))
    simp only [goRids] at h
    split at h
    · rename_i hg
      have hP1 : Producing data ⟨insert rid st.recipes, st.items⟩ := by
        intro r hr
        rcases Finset.mem_insert.mp hr with hr0 | hr0
        · exact ⟨iid, hiid, hr0 ▸ hlist rid (List.mem_cons_self _ _)⟩
        · exact hP r hr0
      split at h
      · exact ih' _ b st' hP1 hiid h
      · rename_i r _
        split at h
        · cases h
        · rename_i st2 hgi
          exact ih' st2 b st'
            (goInputs_prod rec data E hrecP r.inputs _ b st2 hP1 hgi)
            ((goInputs_grow rec E hrecG hgi).2 hiid) h
    · exact ih' st b st' hP hiid h

theorem resolveF_prod (data : Data) (E : Finset Nat) :
    ∀ fuel st iid b st', Producing data st → iid ∈ st.items →
      resolveF fuel data E st iid b = some st' → Producing data st' := by
  intro fuel
  induction fuel with
  | zero => intro st iid b st' _ _ h; simp [resolveF] at h
  | succ n ih =>
    intro st iid b st' hP hiid h
    simp only [resolveF] at h
    cases hl : List.lookup iid data.as_output with
    | none => rw [hl] at h; cases h; exact hP
    | some rids =>
      rw [hl] at h
      exact goRids_prod _ data E iid (fun _ _ _ hh => resolveF_grow hh)
        (fun st i st' hP hi hh => ih st i true st' hP hi hh)
        rids (fun r hr => by simpa [asOutputList, hl] using hr)
        st b st' hP hiid h

theorem resolveList_prod (data : Data) (E : Finset Nat) (b : Bool) :
    ∀ l st st', Producing data st → (∀ i ∈ l, i ∈ st.items) →
      resolveList data E b (some st) l = some st' → Producing data st' := by
  intro l
  induction l with
  | nil =>
    intro st st' hP _ h
    cases h
    exact hP
  | cons iid rest ih =>
    intro st st' hP hmem h
    replace h : resolveList data E b
        (resolveF (resolveFuel data) data E st iid b) rest = some st' := h
    cases hr : resolveF (resolveFuel data) data E st iid b with
    | none => rw [hr, resolveList_none] at h; cases h
    | some st1 =>
      rw [hr] at h
      exact ih st1 st'
        (resolveF_prod data E _ st iid b st1 hP (hmem iid (List.mem_cons_self _ _)) hr)
        (fun i hi => (resolveF_grow hr).2 (hmem i (List.mem_cons_of_mem _ hi))) h

theorem parseToken_unknown (data : Data) (t : String) (io : Bool)
    (h1 : parseUsize t = none)
    (h2 : List.lookup t data.item_by_name = none)
    (h3 : List.lookup t data.recipes_by_name = none)
    (h4 : lowerStr t ∉ (["all", "explicit", "advanced", "material", "matrix",
      "product", "production", "resource", "component", "logistics"] : List String)) :
    parseToken data t io = .error s!"Invalid or unknown item: {lowerStr t}" := by
  simp only [List.mem_cons, List.not_mem_nil, or_false, not_or] at h4
  obtain ⟨k1, k2, k3, k4, k5, k6, k7, k8, k9, k10⟩ := h4
  simp only [parseToken, h1, h2, h3, categoryOfKeyword,
    if_neg k1, if_neg k4, if_neg k5, if_neg k6, if_neg k7, if_neg k8, if_neg k9, if_neg k10,
    if_neg (show ¬(lowerStr t = "explicit" ∧ io = false) from fun hc => k2 hc.1),
    if_neg (show ¬(lowerStr t = "advanced" ∧ io = false) from fun hc => k3 hc.1)]

/-! ### The claims -/

/-- C1 (confirmed): for every dataset, starting item set, exclusion set and
recursion flag, a recipe identifier in the exclusion set never appears in the
resolved recipe set. -/
theorem claim1_exclusion_correctness (data : Data) (S E : Finset Nat) (b : Bool)
    (r : Nat) (hr : r ∈ E) : r ∉ (execResolve data S E b).recipes := by
  obtain ⟨st', hst⟩ := Option.isSome_iff_exists.mp (execResolveOpt_isSome data S E b)
  rw [show execResolve data S E b = st' by simp [execResolve, hst]]
  replace hst : resolveList data E b (some ⟨∅, S⟩) (Finset.sort (· ≤ ·) S) = some st' := hst
  exact resolveList_pres data E b (fun s => r ∉ s.recipes)
    (fun st iid st1 hP h => resolveF_excl hr hP h)
    _ ⟨∅, S⟩ st' (Finset.not_mem_empty r) hst

/-- Witness for C1: with recipe 10 excluded, resolving Ingot in the
end-to-end dataset leaves 10 out of the result. -/
theorem claim1_witness :
    (10 : Nat) ∈ ({10} : Finset Nat) ∧
      (10 : Nat) ∉ (execResolve dataC6 {2} {10} true).recipes :=
  ⟨by decide, claim1_exclusion_correctness dataC6 {2} {10} true 10 (by decide)⟩

/-- C2 (confirmed): for every dataset, starting item set and exclusion set,
the recipe set resolved with `resolve_deps = true` is a superset of the one
resolved with `resolve_deps = false`. -/
theorem claim2_monotonicity (data : Data) (S E : Finset Nat) :
    (execResolve data S E false).recipes ⊆ (execResolve data S E true).recipes := by
  obtain ⟨stf, hf⟩ := Option.isSome_iff_exists.mp (execResolveOpt_isSome data S E false)
  obtain ⟨stt, ht⟩ := Option.isSome_iff_exists.mp (execResolveOpt_isSome data S E true)
  rw [show execResolve data S E false = stf by simp [execResolve, hf],
    show execResolve data S E true = stt by simp [execResolve, ht]]
  exact resolveList_pair data E (Finset.sort (· ≤ ·) S) ⟨∅, S⟩ ⟨∅, S⟩ stf stt
    subset_rfl hf ht

/-- C3 counterexample: item 1 is both a starting item and excluded, yet it is
a member of the resolved item set, and recipe 10 is added to the result
precisely because it produces the excluded item 1 — the top-level loop does
not filter starting items against the exclusion set. -/
theorem claim3_counterexample :
    1 ∈ (execResolve dataC3 {1} {1} true).items ∧
      10 ∈ (execResolve dataC3 {1} {1} true).recipes := by
  have h : execResolveOpt dataC3 {1} {1} true = some ⟨{10}, {1}⟩ := by
    simp only [execResolveOpt, Finset.sort_singleton]
    decide
  rw [show execResolve dataC3 {1} {1} true = ⟨{10}, {1}⟩ by simp [execResolve, h]]
  exact ⟨by decide, by decide⟩

/-- C3 (amended): an excluded item that is *not* among the starting items
never appears in the resolved item set (an excluded starting item, by
contrast, stays in the set and is still expanded by the top-level loop). -/
theorem claim3_amended_excluded_item (data : Data) (S E : Finset Nat) (b : Bool)
    (i : Nat) (hi : i ∈ E) (hs : i ∉ S) : i ∉ (execResolve data S E b).items := by
  obtain ⟨st', hst⟩ := Option.isSome_iff_exists.mp (execResolveOpt_isSome data S E b)
  rw [show execResolve data S E b = st' by simp [execResolve, hst]]
  replace hst : resolveList data E b (some ⟨∅, S⟩) (Finset.sort (· ≤ ·) S) = some st' := hst
  exact resolveList_pres data E b (fun s => i ∉ s.items)
    (fun st iid st1 hP h => resolveF_exclItem hi hP h)
    _ ⟨∅, S⟩ st' hs hst

/-- Witness for the amended C3: item 5 is excluded and not a starting item,
so it is absent from the result. -/
theorem claim3_witness :
    ((5 : Nat) ∈ ({5} : Finset Nat) ∧ (5 : Nat) ∉ ({2} : Finset Nat)) ∧
      (5 : Nat) ∉ (execResolve dataC6 {2} {5} true).items :=
  ⟨⟨by decide, by decide⟩,
    claim3_amended_excluded_item dataC6 {2} {5} true 5 (by decide) (by decide)⟩

/-- C4 (confirmed): resolution always terminates — the fuel bound
`(recipe count) + 1` is never exhausted, for every dataset including cyclic
ones — and on the concrete two-recipe cycle it returns exactly the two
recipes; the visited set is a finite set, so each recipe identifier occurs in
it at most once. -/
theorem claim4_termination :
    (∀ (data : Data) (S E : Finset Nat) (b : Bool), (execResolveOpt data S E b).isSome) ∧
      (execResolve dataCyc {1} ∅ true).recipes = {100, 101} ∧
      (execResolve dataCyc {1} ∅ true).items = {1, 2} := by
  refine ⟨execResolveOpt_isSome, ?_, ?_⟩ <;>
  · simp only [execResolve, execResolveOpt, Finset.sort_singleton]
    decide

/-- C5 (confirmed): the `resolve_deps` flag governs only the first expansion
layer: with the flag set the resolver coincides with the always-recursing
variant (every level below the root runs with recursion forced on), and with
the flag clear it performs exactly one expansion level and stops. -/
theorem claim5_flag_governs_first_layer :
    (∀ (fuel : Nat) (data : Data) (E : Finset Nat) (st : St) (iid : Nat),
      resolveF fuel data E st iid true = resolveAllF fuel data E st iid) ∧
      (∀ (fuel : Nat) (data : Data) (E : Finset Nat) (st : St) (iid : Nat),
        1 ≤ fuel → resolveF fuel data E st iid false = some (oneLevel data E st iid)) :=
  ⟨fun fuel data E st iid => resolveF_true data E fuel st iid,
    fun fuel data E st iid h => resolveF_false fuel data E st iid h⟩

/-- Witness for C5 at the end-to-end dataset. -/
theorem claim5_witness :
    resolveF 2 dataC6 ∅ ⟨∅, {2}⟩ 2 true = resolveAllF 2 dataC6 ∅ ⟨∅, {2}⟩ 2 ∧
      resolveF 1 dataC6 ∅ ⟨∅, {2}⟩ 2 false = some (oneLevel dataC6 ∅ ⟨∅, {2}⟩ 2) :=
  ⟨claim5_flag_governs_first_layer.1 2 dataC6 ∅ ⟨∅, {2}⟩ 2,
    claim5_flag_governs_first_layer.2 1 dataC6 ∅ ⟨∅, {2}⟩ 2 (by decide)⟩

/-- C6 (confirmed): the end-to-end scenario: resolving item 2 ("Ingot") with
dependencies yields recipe set {10} and item set {1, 2}, and the rendered
graph contains the edge from "Ore" into recipe node "10" and the edge from
"10" to "Ingot". -/
theorem claim6_end_to_end :
    (execResolve dataC6 {2} ∅ true).recipes = {10} ∧
      (execResolve dataC6 {2} ∅ true).items = {1, 2} ∧
      "    \"Ore\" -> \"10\" [ name=\"1\" ]" ∈
        graphLines dataC6 (execResolve dataC6 {2} ∅ true).recipes ∧
      "    \"10\" -> \"Ingot\" [ name=\"1\" ]" ∈
        graphLines dataC6 (execResolve dataC6 {2} ∅ true).recipes := by
  have h : execResolveOpt dataC6 {2} ∅ true = some ⟨{10}, {1, 2}⟩ := by
    simp only [execResolveOpt, Finset.sort_singleton]
    decide
  rw [show execResolve dataC6 {2} ∅ true = ⟨{10}, {1, 2}⟩ by simp [execResolve, h]]
  refine ⟨rfl, rfl, ?_, ?_⟩ <;>
  · simp only [graphLines, Finset.sort_singleton]
    decide

/-- C7 counterexample: the unknown token "Bogus" is reported *lowercased*:
the error message is "Invalid or unknown item: bogus", which does not contain
the literal token text "Bogus" as supplied (it contains no uppercase letter
at all). -/
theorem claim7_counterexample :
    parse_ids dataEmpty ["Bogus"] true = .error "Invalid or unknown item: bogus" ∧
      'B' ∉ "Invalid or unknown item: bogus".data :=
  ⟨rfl, by decide⟩

/-- C7 (amended): a token that parses as no integer, matches no item or
recipe name and is no recognized keyword fails with an `InvalidToken` error
whose message cites the *lowercased* token text (for an all-lowercase token
this coincides with the literal text as supplied). -/
theorem claim7_amended_token_error (data : Data) (t : String) (io : Bool)
    (h1 : parseUsize t = none)
    (h2 : List.lookup t data.item_by_name = none)
    (h3 : List.lookup t data.recipes_by_name = none)
    (h4 : lowerStr t ∉ (["all", "explicit", "advanced", "material", "matrix",
      "product", "production", "resource", "component", "logistics"] : List String)) :
    parse_ids data [t] io = .error s!"Invalid or unknown item: {lowerStr t}" := by
  simp only [parse_ids, parseToken_unknown data t io h1 h2 h3 h4]

/-- Witness for the amended C7 at the token "Bogus" on the empty dataset. -/
theorem claim7_witness :
    parse_ids dataEmpty ["Bogus"] false = .error "Invalid or unknown item: bogus" :=
  claim7_amended_token_error dataEmpty "Bogus" false rfl rfl rfl (by decide)

/-- C8 (confirmed): rendering never fails on dangling references: a resolved
recipe identifier absent from the recipe collection produces no node and no
edge at all; an input or output whose item identifier is absent from the item
collection contributes no edge, while every other line of the recipe is still
emitted. -/
theorem claim8_dangling_tolerance :
    (∀ (data : Data) (rid : Nat), List.lookup rid data.recipes = none →
      recipeLines data rid = []) ∧
      (∀ (data : Data) (rid : Nat) (a : ItemAmount),
        List.lookup a.id data.items = none →
        inputEdge data rid a = none ∧ outputEdge data rid a = none) ∧
      (∀ (data : Data) (rid : Nat) (r : Recipe),
        List.lookup rid data.recipes = some r →
        recipeLines data rid =
          ["", s!"    /* {r.name} */",
            s!"    \"{rid}\" [ label=\"{r.seconds}\" shape=point width=0.1 ]"]
            ++ r.inputs.filterMap (inputEdge data rid)
            ++ r.outputs.filterMap (outputEdge data rid)) := by
  refine ⟨?_, ?_, ?_⟩
  · intro data rid h
    simp [recipeLines, h]
  · intro data rid a h
    simp [inputEdge, outputEdge, h]
  · intro data rid r h
    simp [recipeLines, h]

/-- Witness for C8 on the dangling dataset: unknown recipe 77 renders to
nothing; the edge for missing item 99 is omitted while the edge for the
existing item 1 and the recipe node are still emitted. -/
theorem claim8_witness :
    recipeLines dataDangling 77 = [] ∧
      (inputEdge dataDangling 10 ⟨99, 4⟩ = none ∧
        outputEdge dataDangling 10 ⟨99, 4⟩ = none) ∧
      recipeLines dataDangling 10 =
        ["", "    /* Broken */", "    \"10\" [ label=\"2\" shape=point width=0.1 ]",
          "    \"Real\" -> \"10\" [ name=\"3\" ]"] :=
  ⟨claim8_dangling_tolerance.1 dataDangling 77 rfl,
    claim8_dangling_tolerance.2.1 dataDangling 10 ⟨99, 4⟩ rfl,
    by rw [claim8_dangling_tolerance.2.2 dataDangling 10 _ rfl]; rfl⟩

/-- C9 (confirmed): the resolver only grows its two accumulator sets — every
recipe and item identifier present before a call is still present after it —
and consequently the final item set of the whole resolve operation contains
every starting item. -/
theorem claim9_growth :
    (∀ (fuel : Nat) (data : Data) (E : Finset Nat) (st : St) (iid : Nat) (b : Bool)
      (st' : St), resolveF fuel data E st iid b = some st' →
        st.recipes ⊆ st'.recipes ∧ st.items ⊆ st'.items) ∧
      (∀ (data : Data) (S E : Finset Nat) (b : Bool),
        S ⊆ (execResolve data S E b).items) := by
  constructor
  · intro fuel data E st iid b st' h
    exact resolveF_grow h
  · intro data S E b
    obtain ⟨st', hst⟩ := Option.isSome_iff_exists.mp (execResolveOpt_isSome data S E b)
    rw [show execResolve data S E b = st' by simp [execResolve, hst]]
    replace hst : resolveList data E b (some ⟨∅, S⟩) (Finset.sort (· ≤ ·) S) = some st' := hst
    exact resolveList_pres data E b (fun s => S ⊆ s.items)
      (fun st iid st1 hP h => hP.trans (resolveF_grow h).2)
      _ ⟨∅, S⟩ st' subset_rfl hst

/-- Witness for C9 at a concrete resolver call. -/
theorem claim9_witness :
    (⟨∅, {2}⟩ : St).recipes ⊆ (⟨{10}, {1, 2}⟩ : St).recipes ∧
      (⟨∅, {2}⟩ : St).items ⊆ (⟨{10}, {1, 2}⟩ : St).items :=
  claim9_growth.1 2 dataC6 ∅ ⟨∅, {2}⟩ 2 true ⟨{10}, {1, 2}⟩ (by decide)

/-- C10 (confirmed): after the top-level resolution loop, every recipe
identifier of the resolved recipe set is listed in the `as_output` index of
at least one item of the resolved item set. -/
theorem claim10_resolved_recipes_produce (data : Data) (S E : Finset Nat) (b : Bool)
    (rid : Nat) (h : rid ∈ (execResolve data S E b).recipes) :
    ∃ iid ∈ (execResolve data S E b).items, rid ∈ asOutputList data iid := by
  obtain ⟨st', hst⟩ := Option.isSome_iff_exists.mp (execResolveOpt_isSome data S E b)
  rw [show execResolve data S E b = st' by simp [execResolve, hst]] at h ⊢
  replace hst : resolveList data E b (some ⟨∅, S⟩) (Finset.sort (· ≤ ·) S) = some st' := hst
  exact resolveList_prod data E b _ ⟨∅, S⟩ st'
    (fun r hr => absurd hr (Finset.not_mem_empty r))
    (fun i hi => (Finset.mem_sort _).mp hi)
    hst rid h

/-- Witness for C10: recipe 10 of the resolved set produces item 2 of the
resolved item set. -/
theorem claim10_witness :
    ∃ iid ∈ (execResolve dataC6 {2} ∅ true).items, 10 ∈ asOutputList dataC6 iid :=
  claim10_resolved_recipes_produce dataC6 {2} ∅ true 10 (by
    simp only [execResolve, execResolveOpt, Finset.sort_singleton]
    decide)

end DspTool
